import Mathlib

/-!
Shallow embedding of the cityjobs ETL pipeline core
(src/functions/main.py, src/functions/process.py, src/functions/models.py).

Modelling conventions:
* Datetimes are modelled as their ISO-format strings; the upstream version
  token is a string.  `datetime.fromisoformat(x).isoformat()` is the identity
  on the already-normalized tokens this pipeline constructs, so the parse /
  re-format round trip in `main.py` is modelled by the explicit string
  normalization `normalizeToken` below.
* The GCS bucket is a key/value store of paths to objects (`Store`).
* Collaborator calls that can fail (the Socrata probe, the full fetch, the
  DuckDB transform, the aggregate rebuild) are driven by an explicit
  environment `Env`; a `false` flag means "this call raises if attempted".
  A raised Python exception propagates to `main`'s handler, modelled by the
  `Res.raised` outcome; writes performed before the raise persist.
* The DuckDB transform (sql/transform.sql) is an opaque pure function
  `tf : Table → Table` over the record rows.
-/

/-- A data row: association of column name to value. -/
abbrev Row := List (String × String)

/-- A record set (contents of a raw JSON snapshot or a parquet file). -/
abbrev Table := List Row

/-- models.py `PipelineState`: the persisted pipeline metadata record.
Fields are ISO strings (`Option` for JSON null). -/
structure PipelineState where
  source_updated_at : Option String
  last_fetched_at : Option String
  last_processed_at : Option String
  record_count : Option Nat
  deriving Repr, DecidableEq

/-- models.py `PipelineState.empty`: the first-run state. -/
def PipelineState.empty : PipelineState :=
  ⟨none, none, none, none⟩

/-- An object stored in the bucket.  `stateJson` is content that parses as a
`PipelineState`; `corrupt` is content that does not. -/
inductive Obj where
  | rawJson (rows : Table)
  | parquet (rows : Table)
  | stateJson (st : PipelineState)
  | corrupt (s : String)
  deriving Repr, DecidableEq

/-- A storage path (GCS object name). -/
abbrev ObjPath := String

/-- The GCS bucket: a finite key/value store of paths to objects. -/
structure Store where
  entries : List (ObjPath × Obj)
  deriving Repr, DecidableEq

namespace Store

/-- `blob.download*` / reading the object at `p` (first matching entry). -/
def get (s : Store) (p : ObjPath) : Option Obj :=
  (s.entries.find? (fun e => e.1 == p)).map (·.2)

/-- `blob.exists()`. -/
def hasKey (s : Store) (p : ObjPath) : Bool :=
  (s.get p).isSome

/-- `blob.upload_from_string` / `upload_from_filename`: full replace of the
object at `p`. -/
def set (s : Store) (p : ObjPath) (o : Obj) : Store :=
  ⟨(p, o) :: s.entries.filter (fun e => !(e.1 == p))⟩

/-- `blob.delete()`. -/
def del (s : Store) (p : ObjPath) : Store :=
  ⟨s.entries.filter (fun e => !(e.1 == p))⟩

/-- All object names in the bucket. -/
def keys (s : Store) : List ObjPath :=
  s.entries.map (·.1)

end Store

/-- Kernel-computable decidability of the string order, via the character
list order (rather than the iterator-based core instance). -/
instance (priority := 2000) stringDecLE (a b : String) : Decidable (a ≤ b) :=
  decidable_of_iff (a.toList ≤ b.toList) String.le_iff_toList_le.symm

/-- Kernel-computable decidability of the strict string order. -/
instance (priority := 2000) stringDecLT (a b : String) : Decidable (a < b) :=
  decidable_of_iff (a.toList < b.toList) String.lt_iff_toList_lt.symm

/-- Equality of `Except` results is decidable when both components are. -/
instance {ε α : Type} [DecidableEq ε] [DecidableEq α] : DecidableEq (Except ε α) := fun a b =>
  match a, b with
  | .ok x, .ok y => if h : x = y then .isTrue (by rw [h]) else .isFalse (by simp [h])
  | .error x, .error y => if h : x = y then .isTrue (by rw [h]) else .isFalse (by simp [h])
  | .ok _, .error _ => .isFalse (by simp)
  | .error _, .ok _ => .isFalse (by simp)

/-- Lexicographically sorted list of paths (GCS listing order; also the order
produced by Python `sorted`). -/
def sortPaths (l : List ObjPath) : List ObjPath :=
  List.insertionSort (· ≤ ·) l

/-- Python `s.startswith(pre)` (the `prefix=` filter of `list_blobs`). -/
def strHasPre (pre s : String) : Bool :=
  pre.toList.isPrefixOf s.toList

/-- Python `s.endswith(suf)` (the `*.parquet` part of the glob). -/
def strHasSuf (suf s : String) : Bool :=
  suf.toList.isSuffixOf s.toList

/-- main.py line 107: `process_date_str.split(".")[0]` — the prefix of the
token before the first `.`. -/
def truncAtDot (s : String) : String :=
  (s.toList.takeWhile (fun c => c != '.')).asString

/-- main.py line 107: the version token actually used for paths and state:
`datetime.fromisoformat(process_date_str.split(".")[0] + "+00:00").isoformat()`.
For the well-formed second-precision tokens this produces, parse-then-isoformat
is the identity, so the result is the truncated token with `+00:00` appended. -/
def normalizeToken (s : String) : String :=
  truncAtDot s ++ "+00:00"

/-- main.py line 111: `f"raw/{v}.json"`. -/
def rawPathOf (v : String) : ObjPath :=
  "raw/" ++ v ++ ".json"

/-- main.py line 125 / 172: `f"processed/{v}.parquet"`. -/
def parquetPathOf (v : String) : ObjPath :=
  "processed/" ++ v ++ ".parquet"

/-- main.py `get_state` (lines 49-55): read `metadata.json`; missing object
gives the empty first-run state; content that fails to parse as
`PipelineState` raises (`.error`). -/
def get_state (s : Store) : Except String PipelineState :=
  match s.get "metadata.json" with
  | none => .ok PipelineState.empty
  | some (Obj.stateJson st) => .ok st
  | some _ => .error "state parse error"

/-- main.py `update_state` (lines 58-63): serialize the whole state and
overwrite `metadata.json`. -/
def update_state (s : Store) (st : PipelineState) : Store :=
  s.set "metadata.json" (Obj.stateJson st)

/-- process.py `process_jobs` (lines 17-65): read the raw JSON at `raw_path`,
apply the SQL transform, write the parquet at `processed_path`.  Unreadable
input raises (`none`). -/
def process_jobs (tf : Table → Table) (s : Store) (raw_path processed_path : ObjPath) :
    Option Store :=
  match s.get raw_path with
  | some (Obj.rawJson rows) => some (s.set processed_path (Obj.parquet (tf rows)))
  | _ => none

/-- process.py line 82: the wide text columns excluded from the history. -/
def excludedCols : List String :=
  ["job_description", "minimum_qual_requirements", "residency_requirement"]

/-- process.py line 91: `SELECT * EXCLUDE(...)` applied to one row. -/
def projectRow (r : Row) : Row :=
  r.filter (fun c => !(excludedCols.contains c.1))

/-- process.py line 76: the files matched by `processed/*.parquet`, in
listing order. -/
def globProcessed (s : Store) : List ObjPath :=
  sortPaths (s.keys.filter (fun p => strHasPre "processed/" p && strHasSuf ".parquet" p))

/-- Rows of a parquet object (empty for anything else). -/
def rowsOfObj : Option Obj → Table
  | some (Obj.parquet rows) => rows
  | _ => []

/-- The row content process.py `update_jobs_history` (lines 68-100) writes to
`jobs_history.parquet`: the column-projected concatenation of every matched
processed file. -/
def historyRows (s : Store) : Table :=
  (((globProcessed s).map (fun p => rowsOfObj (s.get p))).flatten).map projectRow

/-- process.py `update_jobs_history` (lines 68-100). -/
def update_jobs_history (s : Store) : Store :=
  s.set "jobs_history.parquet" (Obj.parquet (historyRows s))

/-- process.py `rebuild_jobs_history` (lines 103-110): delete
`jobs_history.parquet` if present, then rebuild it. -/
def rebuild_jobs_history (s : Store) : Store :=
  update_jobs_history (s.del "jobs_history.parquet")

/-- Outcomes surfaced to the caller of `main` (the `(str, int)` returns, plus
a propagated exception caught at main.py lines 84-86). -/
inductive Res where
  | okRes
  | noNewData
  | errNoProcessDate
  | noRawFiles
  | reprocessed (n : Nat)
  | raised (msg : String)
  deriving Repr, DecidableEq

/-- One invocation's collaborator behaviour: the probe result
(`get_current_process_date`, `none` for failure/empty), whether the full
fetch, the transform and the aggregate rebuild succeed if attempted, the rows
a successful fetch returns, and the two wall-clock readings. -/
structure Env where
  probe : Option String
  fetchOk : Bool
  fetchRows : Table
  transformOk : Bool
  aggregateOk : Bool
  nowFetch : String
  nowProcess : String
  deriving Repr, DecidableEq

/-- main.py `process_latest` (lines 89-137), parameterized by the transform
`tf` and the invocation environment.  Returns the surfaced outcome and the
bucket contents after the run (including writes made before a raise). -/
def process_latest (tf : Table → Table) (env : Env) (store : Store) : Res × Store :=
  match get_state store with
  | .error e => (.raised e, store)
  | .ok state =>
    match env.probe with
    | none => (.errNoProcessDate, store)
    | some pds =>
      let v := normalizeToken pds
      let raw_path := rawPathOf v
      if store.hasKey raw_path then
        (.noNewData, store)
      else
        let state1 : PipelineState :=
          { state with source_updated_at := some v, last_fetched_at := some env.nowFetch }
        if !env.fetchOk then
          (.raised "fetch_jobs", store)
        else
          let store1 := store.set raw_path (Obj.rawJson env.fetchRows)
          let state2 : PipelineState := { state1 with last_processed_at := some env.nowProcess }
          if !env.transformOk then
            (.raised "process_jobs", store1)
          else
            match process_jobs tf store1 raw_path (parquetPathOf v) with
            | none => (.raised "process_jobs", store1)
            | some store2 =>
              if !env.aggregateOk then
                (.raised "update_jobs_history", store2)
              else
                (.okRes, update_state (update_jobs_history store2) state2)

/-- Python `str.replace`: replace every occurrence of `pat`, scanning left to
right.  The fuel argument (the remaining length) makes the recursion
structural. -/
def replaceAllAux (pat repl : List Char) : Nat → List Char → List Char
  | _, [] => []
  | 0, l => l
  | fuel + 1, c :: rest =>
    if pat.isPrefixOf (c :: rest) then
      repl ++ replaceAllAux pat repl fuel ((c :: rest).drop pat.length)
    else
      c :: replaceAllAux pat repl fuel rest

/-- Python `s.replace(pat, repl)` (for non-empty `pat`). -/
def replaceAll (pat repl s : String) : String :=
  (replaceAllAux pat.toList repl.toList s.toList.length s.toList).asString

/-- main.py line 171: `name.replace("raw/", "").replace(".json", "")`. -/
def tokenOfRawName (n : String) : String :=
  replaceAll ".json" "" (replaceAll "raw/" "" n)

/-- The order in which main.py `reprocess_all` (line 169) visits the raw
snapshots: ascending by full object name. -/
def reprocessOrder (store : Store) : List ObjPath :=
  sortPaths (store.keys.filter (fun p => strHasPre "raw/" p))

/-- The per-file loop of main.py `reprocess_all` (lines 168-177): regenerate
each processed artifact in order, tracking the last token processed; a
transform failure aborts the loop, keeping the writes made so far. -/
def reprocessLoop (tf : Table → Table) :
    List ObjPath → Store → Option String → Except (Store × String) (Store × Option String)
  | [], s, last => .ok (s, last)
  | n :: rest, s, _ =>
    match process_jobs tf s n (parquetPathOf (tokenOfRawName n)) with
    | none => .error (s, "process_jobs")
    | some s2 => reprocessLoop tf rest s2 (some (tokenOfRawName n))

/-- main.py `reprocess_all` (lines 140-194), parameterized by the transform
and the wall-clock reading used for `last_processed_at`. -/
def reprocess_all (tf : Table → Table) (nowP : String) (store : Store) : Res × Store :=
  match get_state store with
  | .error e => (.raised e, store)
  | .ok existing_state =>
    let raw_names := store.keys.filter (fun p => strHasPre "raw/" p)
    if raw_names.isEmpty then
      (.noRawFiles, store)
    else
      let processed_names := store.keys.filter (fun p => strHasPre "processed/" p)
      let store1 := processed_names.foldl Store.del store
      match reprocessLoop tf (sortPaths raw_names) store1 none with
      | .error (s, e) => (.raised e, s)
      | .ok (store2, latest) =>
        let store3 := rebuild_jobs_history store2
        match latest with
        | none => (.reprocessed raw_names.length, store3)
        | some ts =>
          if ts = "" then
            (.reprocessed raw_names.length, store3)
          else
            (.reprocessed raw_names.length,
              update_state store3
                { source_updated_at := some ts
                  last_fetched_at := existing_state.last_fetched_at
                  last_processed_at := some nowP
                  record_count := none })

/-- The bucket contents other than the state object (used to state that a
property does not depend on the persisted `PipelineState`). -/
def stripMeta (s : Store) : Store :=
  ⟨s.entries.filter (fun e => !(e.1 == "metadata.json"))⟩

/-- What the aggregate glob sees: each matched processed path with its
content, in listing order. -/
def processedView (s : Store) : List (ObjPath × Option Obj) :=
  (globProcessed s).map (fun p => (p, s.get p))

/-- A state whose stored source version is `2026-01-02T00:00:00+00:00`. -/
def stOld : PipelineState :=
  ⟨some "2026-01-02T00:00:00+00:00", some "2026-01-02T01:00:00+00:00",
    some "2026-01-02T01:05:00+00:00", some 3⟩

/-- Bucket holding `stOld` and the raw snapshot for its version. -/
def storeOld : Store :=
  ⟨[("metadata.json", Obj.stateJson stOld),
    ("raw/2026-01-02T00:00:00+00:00.json", Obj.rawJson [[("agency", "DOE")]])]⟩

/-- An invocation whose probe returns a version older than `stOld`'s, with
every collaborator succeeding. -/
def envOlderProbe : Env :=
  ⟨some "2026-01-01T00:00:00.000", true, [[("agency", "DOT")]], true, true,
    "2026-01-02T02:00:00+00:00", "2026-01-02T02:05:00+00:00"⟩

/-- An invocation whose probe returns exactly `stOld`'s stored version. -/
def envSameProbe : Env :=
  ⟨some "2026-01-02T00:00:00.000", true, [[("agency", "DOT")]], true, true,
    "2026-01-02T03:00:00+00:00", "2026-01-02T03:05:00+00:00"⟩

/-- Bucket holding an empty-state metadata object and one raw snapshot whose
processed artifact is missing (the crashed-after-fetch situation). -/
def storeRawOnly : Store :=
  ⟨[("metadata.json", Obj.stateJson PipelineState.empty),
    ("raw/2026-01-05T00:00:00+00:00.json", Obj.rawJson [[("agency", "DOE")]])]⟩

/-- An invocation whose probe returns the version of `storeRawOnly`'s raw
snapshot. -/
def envProbe5 : Env :=
  ⟨some "2026-01-05T00:00:00.000", true, [[("agency", "X")]], true, true,
    "2026-01-05T01:00:00+00:00", "2026-01-05T01:05:00+00:00"⟩

/-- Bucket holding only the `stOld` state object. -/
def storeFresh : Store :=
  ⟨[("metadata.json", Obj.stateJson stOld)]⟩

/-- An invocation with a new probe version where only the aggregate rebuild
fails. -/
def envAggFail : Env :=
  ⟨some "2026-01-06T00:00:00.000", true, [[("agency", "Y")]], true, false,
    "2026-01-06T01:00:00+00:00", "2026-01-06T01:05:00+00:00"⟩

/-- Bucket whose state object fails to parse as a `PipelineState`. -/
def storeCorrupt : Store :=
  ⟨[("metadata.json", Obj.corrupt "not-a-pipeline-state")]⟩

/-- A fully healthy invocation environment. -/
def envHealthy : Env :=
  ⟨some "2026-01-07T00:00:00.000", true, [[("agency", "Z")]], true, true,
    "2026-01-07T01:00:00+00:00", "2026-01-07T01:05:00+00:00"⟩

/-- An empty bucket (no state object at all). -/
def storeNoMeta : Store :=
  ⟨[]⟩

/-- A bucket with one processed artifact, plus unrelated state/raw objects. -/
def storeAgg1 : Store :=
  ⟨[("metadata.json", Obj.stateJson stOld),
    ("processed/2026-01-01T00:00:00+00:00.parquet",
      Obj.parquet [[("agency", "DOE"), ("job_description", "long text")]]),
    ("raw/2026-01-01T00:00:00+00:00.json", Obj.rawJson [[("agency", "DOE")]])]⟩

/-- A bucket with the same processed artifact as `storeAgg1` but no state
object and no raw snapshots, entered in a different order. -/
def storeAgg2 : Store :=
  ⟨[("processed/2026-01-01T00:00:00+00:00.parquet",
      Obj.parquet [[("agency", "DOE"), ("job_description", "long text")]])]⟩

/-- A state whose stored source version is far in the future. -/
def stNew : PipelineState :=
  ⟨some "2031-12-31T00:00:00+00:00", none, none, none⟩

/-- Same bucket contents as `storeOld` except for the state object, which
stores `stNew`. -/
def storeOldAlt : Store :=
  ⟨[("metadata.json", Obj.stateJson stNew),
    ("raw/2026-01-02T00:00:00+00:00.json", Obj.rawJson [[("agency", "DOE")]])]⟩

/-- Whether a stored object is a readable raw JSON snapshot. -/
def isRawObj : Option Obj → Bool
  | some (Obj.rawJson _) => true
  | _ => false

/-- Bucket with three raw snapshots (listed out of order), a stale processed
artifact and the `stOld` state object. -/
def storeMulti : Store :=
  ⟨[("metadata.json", Obj.stateJson stOld),
    ("raw/2026-01-03T00:00:00+00:00.json", Obj.rawJson [[("agency", "A3")]]),
    ("raw/2026-01-01T00:00:00+00:00.json", Obj.rawJson [[("agency", "A1")]]),
    ("processed/stale.parquet", Obj.parquet [[("agency", "STALE")]]),
    ("raw/2026-01-02T00:00:00+00:00.json", Obj.rawJson [[("agency", "A2")]])]⟩

-- store lemmas
theorem find_key_filter_ne (l : List (ObjPath × Obj)) (p q : ObjPath) (h : q ≠ p) :
    (l.filter (fun e => !(e.1 == p))).find? (fun e => e.1 == q) =
      l.find? (fun e => e.1 == q) := by
  induction l with
  | nil => rfl
  | cons a t ih =>
    by_cases hq : a.1 = q
    · have hp : (a.1 == p) = false := by simp [hq, h]
      simp [List.filter_cons, hp, List.find?_cons, hq, h]
    · by_cases hp : a.1 = p
      · simp [List.filter_cons, hp, List.find?_cons, hq, ih, Ne.symm h]
      · simp [List.filter_cons, hp, List.find?_cons, hq, ih]

theorem Store.get_set_self (s : Store) (p : ObjPath) (o : Obj) :
    (s.set p o).get p = some o := by
  simp [Store.get, Store.set, List.find?_cons]

theorem Store.get_set_ne (s : Store) (p q : ObjPath) (o : Obj) (h : q ≠ p) :
    (s.set p o).get q = s.get q := by
  have hpq : (p == q) = false := by simp [Ne.symm h]
  simp [Store.get, Store.set, List.find?_cons, hpq, find_key_filter_ne _ _ _ h]

theorem Store.get_del_ne (s : Store) (p q : ObjPath) (h : q ≠ p) :
    (s.del p).get q = s.get q := by
  simp [Store.get, Store.del, find_key_filter_ne _ _ _ h]

theorem Store.get_del_self (s : Store) (p : ObjPath) :
    (s.del p).get p = none := by
  simp only [Store.get, Store.del]
  induction s.entries with
  | nil => rfl
  | cons a t ih =>
    by_cases hp : a.1 = p
    · simp [List.filter_cons, hp, ih]
    · simp [List.filter_cons, hp, List.find?_cons, ih]

-- path shape lemmas
theorem toList_append (a b : String) : (a ++ b).toList = a.toList ++ b.toList :=
  String.data_append a b

theorem strHasPre_append (pre rest : String) : strHasPre pre (pre ++ rest) = true := by
  simp [strHasPre, toList_append, List.isPrefixOf_iff_prefix]

theorem take4_append (pre x : String) (h : pre.toList.length = 4) :
    ((pre ++ x).toList.take 4) = pre.toList := by
  rw [toList_append, List.take_left' h]

theorem rawPathOf_eq_append (v : String) : rawPathOf v = "raw/" ++ (v ++ ".json") := by
  rw [rawPathOf, String.append_assoc]

theorem parquetPathOf_eq_append (v : String) :
    parquetPathOf v = "processed/" ++ (v ++ ".parquet") := by
  rw [parquetPathOf, String.append_assoc]

theorem take4_rawPathOf (v : String) : (rawPathOf v).toList.take 4 = "raw/".toList := by
  rw [rawPathOf_eq_append]; exact take4_append _ _ (by decide)

theorem take4_parquetPathOf (v : String) :
    (parquetPathOf v).toList.take 4 = "proc".toList := by
  rw [parquetPathOf_eq_append, toList_append]
  have : ("processed/".toList) = "proc".toList ++ "essed/".toList := by decide
  rw [this, List.append_assoc, List.take_left' (by decide)]

theorem rawPathOf_ne_meta (v : String) : rawPathOf v ≠ "metadata.json" := by
  intro h
  have h4 : (rawPathOf v).toList.take 4 = "metadata.json".toList.take 4 := by rw [h]
  rw [take4_rawPathOf] at h4
  exact absurd h4 (by decide)

theorem rawPathOf_ne_history (v : String) : rawPathOf v ≠ "jobs_history.parquet" := by
  intro h
  have h4 : (rawPathOf v).toList.take 4 = "jobs_history.parquet".toList.take 4 := by rw [h]
  rw [take4_rawPathOf] at h4
  exact absurd h4 (by decide)

theorem parquetPathOf_ne_meta (v : String) : parquetPathOf v ≠ "metadata.json" := by
  intro h
  have h4 : (parquetPathOf v).toList.take 4 = "metadata.json".toList.take 4 := by rw [h]
  rw [take4_parquetPathOf] at h4
  exact absurd h4 (by decide)

theorem parquetPathOf_ne_history (v : String) : parquetPathOf v ≠ "jobs_history.parquet" := by
  intro h
  have h4 : (parquetPathOf v).toList.take 4 = "jobs_history.parquet".toList.take 4 := by rw [h]
  rw [take4_parquetPathOf] at h4
  exact absurd h4 (by decide)

theorem rawPathOf_ne_parquetPathOf (v w : String) : rawPathOf v ≠ parquetPathOf w := by
  intro h
  have h4 : (rawPathOf v).toList.take 4 = (parquetPathOf w).toList.take 4 := by rw [h]
  rw [take4_rawPathOf, take4_parquetPathOf] at h4
  exact absurd h4 (by decide)

theorem strHasPre_raw_rawPathOf (v : String) : strHasPre "raw/" (rawPathOf v) = true := by
  rw [rawPathOf_eq_append]; exact strHasPre_append _ _

theorem strHasPre_processed_parquetPathOf (v : String) :
    strHasPre "processed/" (parquetPathOf v) = true := by
  rw [parquetPathOf_eq_append]; exact strHasPre_append _ _

-- process_latest branch characterizations
theorem process_latest_corrupt (tf : Table → Table) (env : Env) (s : Store) (e : String)
    (h : get_state s = .error e) : process_latest tf env s = (.raised e, s) := by
  unfold process_latest
  rw [h]

theorem process_latest_no_probe (tf : Table → Table) (env : Env) (s : Store)
    (st : PipelineState) (hst : get_state s = .ok st) (hp : env.probe = none) :
    process_latest tf env s = (.errNoProcessDate, s) := by
  unfold process_latest
  rw [hst, hp]

theorem process_latest_raw_present (tf : Table → Table) (env : Env) (s : Store)
    (st : PipelineState) (p : String) (hst : get_state s = .ok st) (hp : env.probe = some p)
    (hraw : s.hasKey (rawPathOf (normalizeToken p)) = true) :
    process_latest tf env s = (.noNewData, s) := by
  unfold process_latest
  rw [hst, hp]
  simp [hraw]

theorem process_latest_fetch_fail (tf : Table → Table) (env : Env) (s : Store)
    (st : PipelineState) (p : String) (hst : get_state s = .ok st) (hp : env.probe = some p)
    (hraw : s.hasKey (rawPathOf (normalizeToken p)) = false) (hf : env.fetchOk = false) :
    process_latest tf env s = (.raised "fetch_jobs", s) := by
  unfold process_latest
  rw [hst, hp]
  simp [hraw, hf]

theorem process_latest_transform_fail (tf : Table → Table) (env : Env) (s : Store)
    (st : PipelineState) (p : String) (hst : get_state s = .ok st) (hp : env.probe = some p)
    (hraw : s.hasKey (rawPathOf (normalizeToken p)) = false) (hf : env.fetchOk = true)
    (ht : env.transformOk = false) :
    process_latest tf env s =
      (.raised "process_jobs",
        s.set (rawPathOf (normalizeToken p)) (Obj.rawJson env.fetchRows)) := by
  unfold process_latest
  rw [hst, hp]
  simp [hraw, hf, ht]

theorem process_latest_aggregate_fail (tf : Table → Table) (env : Env) (s : Store)
    (st : PipelineState) (p : String) (hst : get_state s = .ok st) (hp : env.probe = some p)
    (hraw : s.hasKey (rawPathOf (normalizeToken p)) = false) (hf : env.fetchOk = true)
    (ht : env.transformOk = true) (ha : env.aggregateOk = false) :
    process_latest tf env s =
      (.raised "update_jobs_history",
        (s.set (rawPathOf (normalizeToken p)) (Obj.rawJson env.fetchRows)).set
          (parquetPathOf (normalizeToken p)) (Obj.parquet (tf env.fetchRows))) := by
  unfold process_latest
  rw [hst, hp]
  simp [hraw, hf, ht, ha, process_jobs, Store.get_set_self]

theorem process_latest_success (tf : Table → Table) (env : Env) (s : Store)
    (st : PipelineState) (p : String) (hst : get_state s = .ok st) (hp : env.probe = some p)
    (hraw : s.hasKey (rawPathOf (normalizeToken p)) = false) (hf : env.fetchOk = true)
    (ht : env.transformOk = true) (ha : env.aggregateOk = true) :
    process_latest tf env s =
      (.okRes,
        update_state
          (update_jobs_history
            ((s.set (rawPathOf (normalizeToken p)) (Obj.rawJson env.fetchRows)).set
              (parquetPathOf (normalizeToken p)) (Obj.parquet (tf env.fetchRows))))
          ⟨some (normalizeToken p), some env.nowFetch, some env.nowProcess,
            st.record_count⟩) := by
  unfold process_latest
  rw [hst, hp]
  simp [hraw, hf, ht, ha, process_jobs, Store.get_set_self]

-- state read-back and metadata-preservation helpers
theorem get_state_update_state (s : Store) (st : PipelineState) :
    get_state (update_state s st) = .ok st := by
  simp [get_state, update_state, Store.get_set_self]

theorem hasKey_eq_false_of_not_true {s : Store} {p : ObjPath}
    (h : ¬ s.hasKey p = true) : s.hasKey p = false :=
  Bool.not_eq_true _ ▸ (Bool.of_not_eq_true h)

theorem meta_unchanged_of_not_ok (tf : Table → Table) (env : Env) (s : Store)
    (h : (process_latest tf env s).1 ≠ Res.okRes) :
    (process_latest tf env s).2.get "metadata.json" = s.get "metadata.json" := by
  cases hg : get_state s with
  | error e => rw [process_latest_corrupt tf env s e hg]
  | ok st =>
    cases hp : env.probe with
    | none => rw [process_latest_no_probe tf env s st hg hp]
    | some p =>
      by_cases hraw : s.hasKey (rawPathOf (normalizeToken p)) = true
      · rw [process_latest_raw_present tf env s st p hg hp hraw]
      · have hraw' := hasKey_eq_false_of_not_true hraw
        cases hf : env.fetchOk with
        | false => rw [process_latest_fetch_fail tf env s st p hg hp hraw' hf]
        | true =>
          cases ht : env.transformOk with
          | false =>
            rw [process_latest_transform_fail tf env s st p hg hp hraw' hf ht]
            exact Store.get_set_ne _ _ _ _ (Ne.symm (rawPathOf_ne_meta _))
          | true =>
            cases ha : env.aggregateOk with
            | false =>
              rw [process_latest_aggregate_fail tf env s st p hg hp hraw' hf ht ha]
              rw [Store.get_set_ne _ _ _ _ (Ne.symm (parquetPathOf_ne_meta _))]
              exact Store.get_set_ne _ _ _ _ (Ne.symm (rawPathOf_ne_meta _))
            | true =>
              rw [process_latest_success tf env s st p hg hp hraw' hf ht ha] at h
              exact absurd rfl h

/-- C1 (counterexample): with stored source version 2026-01-02, a probe
returning the older 2026-01-01 (whose raw snapshot is absent) is accepted and
stored, so the persisted source version moves strictly backwards — the
incremental path does not require the new token to exceed the stored one. -/
theorem claimC1_counterexample :
    get_state storeOld = .ok stOld ∧
    stOld.source_updated_at = some "2026-01-02T00:00:00+00:00" ∧
    (process_latest id envOlderProbe storeOld).1 = Res.okRes ∧
    get_state (process_latest id envOlderProbe storeOld).2 =
      .ok ⟨some "2026-01-01T00:00:00+00:00", some "2026-01-02T02:00:00+00:00",
        some "2026-01-02T02:05:00+00:00", some 3⟩ ∧
    ("2026-01-01T00:00:00+00:00" : String) < "2026-01-02T00:00:00+00:00" := by
  exact ⟨by decide, rfl, by decide, by decide, by decide⟩

/-- C1 (amended): the incremental path accepts and stores the probed version
token exactly when no raw snapshot exists at its derived path (and the run's
steps succeed); no comparison with the stored source version is performed, so
the stored version is not monotone. -/
theorem claimC1_amended (tf : Table → Table) (env : Env) (s : Store)
    (st : PipelineState) (p : String) (hst : get_state s = .ok st)
    (hp : env.probe = some p) (hf : env.fetchOk = true) (ht : env.transformOk = true)
    (ha : env.aggregateOk = true) :
    (s.hasKey (rawPathOf (normalizeToken p)) = true →
      process_latest tf env s = (.noNewData, s)) ∧
    (s.hasKey (rawPathOf (normalizeToken p)) = false →
      (process_latest tf env s).1 = Res.okRes ∧
      get_state (process_latest tf env s).2 =
        .ok ⟨some (normalizeToken p), some env.nowFetch, some env.nowProcess,
          st.record_count⟩) := by
  constructor
  · intro hraw
    exact process_latest_raw_present tf env s st p hst hp hraw
  · intro hraw
    rw [process_latest_success tf env s st p hst hp hraw hf ht ha]
    exact ⟨rfl, get_state_update_state _ _⟩

/-- C1 (witness): the amended theorem applied to the concrete backward-moving
run. -/
theorem claimC1_witness :
    (process_latest id envOlderProbe storeOld).1 = Res.okRes ∧
    get_state (process_latest id envOlderProbe storeOld).2 =
      .ok ⟨some (normalizeToken "2026-01-01T00:00:00.000"),
        some envOlderProbe.nowFetch, some envOlderProbe.nowProcess,
        stOld.record_count⟩ :=
  (claimC1_amended id envOlderProbe storeOld stOld "2026-01-01T00:00:00.000"
    (by decide) rfl rfl rfl rfl).2 (by decide)

/-- C2 (counterexample): stored version T = 2026-01-02, probe result
v = 2026-01-01 with normalized form ≤ T, yet the run performs writes (the raw
snapshot for v appears) and does not return NoNewData, because the no-new-data
decision tests raw-path existence, not v ≤ T. -/
theorem claimC2_counterexample :
    get_state storeOld = .ok stOld ∧
    stOld.source_updated_at = some "2026-01-02T00:00:00+00:00" ∧
    normalizeToken "2026-01-01T00:00:00.000" ≤ "2026-01-02T00:00:00+00:00" ∧
    (process_latest id envOlderProbe storeOld).1 ≠ Res.noNewData ∧
    (process_latest id envOlderProbe storeOld).2 ≠ storeOld ∧
    (process_latest id envOlderProbe storeOld).2.hasKey
      (rawPathOf "2026-01-01T00:00:00+00:00") = true := by
  exact ⟨by decide, rfl, by decide, by decide, by decide, by decide⟩

/-- C2 (amended): when a raw snapshot already exists at the path derived from
the probe result, the run returns NoNewData and performs zero writes (the
bucket is returned unchanged); this existence check, not a version
comparison, is the no-op guard. -/
theorem claimC2_amended (tf : Table → Table) (env : Env) (s : Store)
    (st : PipelineState) (p : String) (hst : get_state s = .ok st)
    (hp : env.probe = some p)
    (hraw : s.hasKey (rawPathOf (normalizeToken p)) = true) :
    process_latest tf env s = (.noNewData, s) :=
  process_latest_raw_present tf env s st p hst hp hraw

/-- C2 (witness): the amended theorem applied to a probe matching the stored
snapshot. -/
theorem claimC2_witness :
    process_latest id envSameProbe storeOld = (.noNewData, storeOld) :=
  claimC2_amended id envSameProbe storeOld stOld "2026-01-02T00:00:00.000"
    (by decide) rfl (by decide)

/-- C3 (counterexample): the raw snapshot for the probed version exists but
its processed artifact is missing; the run nonetheless returns NoNewData and
produces no processed artifact, instead of skipping the fetch and proceeding
to processing. -/
theorem claimC3_counterexample :
    storeRawOnly.hasKey (rawPathOf (normalizeToken "2026-01-05T00:00:00.000")) = true ∧
    storeRawOnly.hasKey (parquetPathOf (normalizeToken "2026-01-05T00:00:00.000")) = false ∧
    process_latest id envProbe5 storeRawOnly = (Res.noNewData, storeRawOnly) ∧
    (process_latest id envProbe5 storeRawOnly).2.hasKey
      (parquetPathOf (normalizeToken "2026-01-05T00:00:00.000")) = false := by
  exact ⟨by decide, by decide, by decide, by decide⟩

/-- C3 (amended): when the raw snapshot for the probed version exists, the run
returns NoNewData immediately — even if the processed artifact is missing, no
processing, aggregation or state update happens; recovery of a missing
processed artifact is left to reprocess_all. -/
theorem claimC3_amended (tf : Table → Table) (env : Env) (s : Store)
    (st : PipelineState) (p : String) (hst : get_state s = .ok st)
    (hp : env.probe = some p)
    (hraw : s.hasKey (rawPathOf (normalizeToken p)) = true)
    (hproc : s.hasKey (parquetPathOf (normalizeToken p)) = false) :
    process_latest tf env s = (.noNewData, s) ∧
    (process_latest tf env s).2.hasKey (parquetPathOf (normalizeToken p)) = false := by
  have h := process_latest_raw_present tf env s st p hst hp hraw
  exact ⟨h, by rw [h]; exact hproc⟩

/-- C3 (witness): the amended theorem applied to the crashed-after-fetch
bucket. -/
theorem claimC3_witness :
    process_latest id envProbe5 storeRawOnly = (Res.noNewData, storeRawOnly) ∧
    (process_latest id envProbe5 storeRawOnly).2.hasKey
      (parquetPathOf (normalizeToken "2026-01-05T00:00:00.000")) = false :=
  claimC3_amended id envProbe5 storeRawOnly PipelineState.empty
    "2026-01-05T00:00:00.000" (by decide) rfl (by decide) (by decide)

/-- C5: a failing probe aborts with the error surfaced and the bucket (hence
the persisted state) untouched; a failing fetch aborts with the bucket
untouched; a failing transform aborts leaving the raw snapshot but the
persisted state byte-identical; and in every run that does not fully succeed
(probing, fetching, processing and aggregation), the state object is not
written — it is replaced wholesale exactly on full success. -/
theorem claimC5_state_untouched_on_failure (tf : Table → Table) (env : Env) (s : Store) :
    (∀ st, get_state s = .ok st → env.probe = none →
      process_latest tf env s = (.errNoProcessDate, s)) ∧
    (∀ st p, get_state s = .ok st → env.probe = some p →
      s.hasKey (rawPathOf (normalizeToken p)) = false →
      ((env.fetchOk = false → process_latest tf env s = (.raised "fetch_jobs", s)) ∧
       (env.fetchOk = true → env.transformOk = false →
         (process_latest tf env s).1 = Res.raised "process_jobs" ∧
         (process_latest tf env s).2.get "metadata.json" = s.get "metadata.json"))) ∧
    ((process_latest tf env s).1 ≠ Res.okRes →
      (process_latest tf env s).2.get "metadata.json" = s.get "metadata.json") := by
  refine ⟨?_, ?_, meta_unchanged_of_not_ok tf env s⟩
  · intro st hst hp
    exact process_latest_no_probe tf env s st hst hp
  · intro st p hst hp hraw
    constructor
    · intro hf
      exact process_latest_fetch_fail tf env s st p hst hp hraw hf
    · intro hf ht
      rw [process_latest_transform_fail tf env s st p hst hp hraw hf ht]
      exact ⟨rfl, Store.get_set_ne _ _ _ _ (Ne.symm (rawPathOf_ne_meta _))⟩

/-- C5 (witness): the theorem applied to a concrete transform-failure run:
the raw write happens, the state object is unchanged. -/
theorem claimC5_witness :
    (process_latest id
        ⟨some "2026-01-08T00:00:00.000", true, [[("agency", "W")]], false, true,
          "F8", "P8"⟩ storeOld).1 = Res.raised "process_jobs" ∧
    (process_latest id
        ⟨some "2026-01-08T00:00:00.000", true, [[("agency", "W")]], false, true,
          "F8", "P8"⟩ storeOld).2.get "metadata.json" =
      storeOld.get "metadata.json" :=
  ((claimC5_state_untouched_on_failure id
      ⟨some "2026-01-08T00:00:00.000", true, [[("agency", "W")]], false, true,
        "F8", "P8"⟩ storeOld).2.1 stOld "2026-01-08T00:00:00.000"
    (by decide) rfl (by decide)).2 rfl rfl

/-- C6 (counterexample): with a fresh probe version and a failing aggregate
step, the run raises (HTTP 500 via main's handler) and the state object is
unchanged — the new source version is NOT recorded and no degraded-success
outcome exists — while the processed artifact for the new version does
exist. -/
theorem claimC6_counterexample :
    (process_latest id envAggFail storeFresh).1 = Res.raised "update_jobs_history" ∧
    get_state (process_latest id envAggFail storeFresh).2 = .ok stOld ∧
    stOld.source_updated_at = some "2026-01-02T00:00:00+00:00" ∧
    (process_latest id envAggFail storeFresh).2.hasKey
      (parquetPathOf (normalizeToken "2026-01-06T00:00:00.000")) = true := by
  exact ⟨by decide, by decide, rfl, by decide⟩

/-- C6 (amended): if the aggregate-update step fails after the processed
artifact for the new version is written, the run aborts with the raised
failure surfaced as an error — the persisted state (and so the recorded
source version) is left exactly as before, and the raw and processed
artifacts for the new version remain in the bucket. -/
theorem claimC6_amended (tf : Table → Table) (env : Env) (s : Store)
    (st : PipelineState) (p : String) (hst : get_state s = .ok st)
    (hp : env.probe = some p)
    (hraw : s.hasKey (rawPathOf (normalizeToken p)) = false)
    (hf : env.fetchOk = true) (ht : env.transformOk = true)
    (ha : env.aggregateOk = false) :
    (process_latest tf env s).1 = Res.raised "update_jobs_history" ∧
    (process_latest tf env s).2.get "metadata.json" = s.get "metadata.json" ∧
    (process_latest tf env s).2.get (parquetPathOf (normalizeToken p)) =
      some (Obj.parquet (tf env.fetchRows)) ∧
    (process_latest tf env s).2.get (rawPathOf (normalizeToken p)) =
      some (Obj.rawJson env.fetchRows) := by
  rw [process_latest_aggregate_fail tf env s st p hst hp hraw hf ht ha]
  refine ⟨rfl, ?_, Store.get_set_self _ _ _, ?_⟩
  · rw [Store.get_set_ne _ _ _ _ (Ne.symm (parquetPathOf_ne_meta _))]
    exact Store.get_set_ne _ _ _ _ (Ne.symm (rawPathOf_ne_meta _))
  · rw [Store.get_set_ne _ _ _ _ (rawPathOf_ne_parquetPathOf _ _)]
    exact Store.get_set_self _ _ _

/-- C6 (witness): the amended theorem applied to the concrete
aggregate-failure run. -/
theorem claimC6_witness :
    (process_latest id envAggFail storeFresh).1 = Res.raised "update_jobs_history" ∧
    (process_latest id envAggFail storeFresh).2.get "metadata.json" =
      storeFresh.get "metadata.json" ∧
    (process_latest id envAggFail storeFresh).2.get
      (parquetPathOf (normalizeToken "2026-01-06T00:00:00.000")) =
        some (Obj.parquet (id envAggFail.fetchRows)) ∧
    (process_latest id envAggFail storeFresh).2.get
      (rawPathOf (normalizeToken "2026-01-06T00:00:00.000")) =
        some (Obj.rawJson envAggFail.fetchRows) :=
  claimC6_amended id envAggFail storeFresh stOld "2026-01-06T00:00:00.000"
    (by decide) rfl (by decide) rfl rfl rfl

/-- C7 (counterexample): a bucket whose state object does not parse as a
PipelineState makes the run raise and stop — the corrupt state is fatal to
the run, not treated as the empty first-run state. -/
theorem claimC7_counterexample :
    process_latest id envHealthy storeCorrupt =
      (Res.raised "state parse error", storeCorrupt) ∧
    get_state storeCorrupt ≠ .ok PipelineState.empty ∧
    (process_latest id envHealthy storeCorrupt).1 ≠ Res.okRes ∧
    (process_latest id envHealthy storeCorrupt).1 ≠ Res.noNewData := by
  exact ⟨by decide, by decide, by decide, by decide⟩

/-- C7 (amended): a missing state object loads as the empty first-run state,
but a state object that fails to parse raises, and the raise propagates out
of the run with the bucket unchanged — corruption is fatal to that run. -/
theorem claimC7_amended :
    (∀ s : Store, s.get "metadata.json" = none → get_state s = .ok PipelineState.empty) ∧
    (∀ (s : Store) (c : String), s.get "metadata.json" = some (Obj.corrupt c) →
      get_state s = .error "state parse error") ∧
    (∀ (tf : Table → Table) (env : Env) (s : Store) (e : String),
      get_state s = .error e → process_latest tf env s = (.raised e, s)) := by
  refine ⟨?_, ?_, ?_⟩
  · intro s h
    simp [get_state, h]
  · intro s c h
    simp [get_state, h]
  · intro tf env s e h
    exact process_latest_corrupt tf env s e h

/-- C7 (witness): the amended theorem applied to the empty bucket and to the
concrete corrupt bucket. -/
theorem claimC7_witness :
    get_state storeNoMeta = .ok PipelineState.empty ∧
    process_latest id envHealthy storeCorrupt =
      (Res.raised "state parse error", storeCorrupt) :=
  ⟨claimC7_amended.1 storeNoMeta (by decide),
    claimC7_amended.2.2 id envHealthy storeCorrupt "state parse error" (by decide)⟩

-- token normalization helpers
theorem rawPathOf_injective (v w : String) (h : rawPathOf v = rawPathOf w) : v = w := by
  have hd : "raw/".toList ++ (v.toList ++ ".json".toList) =
      "raw/".toList ++ (w.toList ++ ".json".toList) := by
    have := congrArg String.data h
    simpa [rawPathOf, String.data_append, List.append_assoc] using this
  have h1 := List.append_cancel_left hd
  have h2 := List.append_cancel_right h1
  exact String.toList_inj.mp h2

theorem normalizeToken_of_no_dot (a : String) (h : '.' ∉ a.toList) :
    normalizeToken a = a ++ "+00:00" := by
  have ht : a.toList.takeWhile (fun c => c != '.') = a.toList := by
    rw [List.takeWhile_eq_self_iff]
    intro c hc
    simp only [bne_iff_ne, ne_eq]
    intro he
    exact h (he ▸ hc)
  rw [normalizeToken, truncAtDot, ht, String.asString_toList]

/-- C8 (counterexample): two distinct upstream tokens, differing only in the
sub-second part, are re-formatted by the pipeline (truncated at the first `.`
with `+00:00` appended) and collide on the same raw path; the token is not
used as received. -/
theorem claimC8_counterexample :
    ("2026-01-26T00:00:00.100" : String) ≠ "2026-01-26T00:00:00.200" ∧
    rawPathOf (normalizeToken "2026-01-26T00:00:00.100") =
      rawPathOf (normalizeToken "2026-01-26T00:00:00.200") ∧
    normalizeToken "2026-01-26T00:00:00.100" ≠ "2026-01-26T00:00:00.100" ∧
    rawPathOf (normalizeToken "2026-01-26T00:00:00.100") ≠
      rawPathOf "2026-01-26T00:00:00.100" := by
  exact ⟨by decide, by decide, by decide, by decide⟩

/-- C8 (amended): the stored/used token is the received token truncated at
its first `.` with `+00:00` appended (not the token as received); the map
from the resulting token to the raw path is injective, so two distinct
upstream tokens collide on a raw path exactly when their truncations agree —
in particular distinct dot-free tokens always map to distinct raw paths. -/
theorem claimC8_amended :
    (∀ v w : String, rawPathOf v = rawPathOf w → v = w) ∧
    (∀ a : String, '.' ∉ a.toList → normalizeToken a = a ++ "+00:00") ∧
    (∀ a b : String, '.' ∉ a.toList → '.' ∉ b.toList → a ≠ b →
      rawPathOf (normalizeToken a) ≠ rawPathOf (normalizeToken b)) := by
  refine ⟨rawPathOf_injective, normalizeToken_of_no_dot, ?_⟩
  intro a b ha hb hne h
  have h1 := rawPathOf_injective _ _ h
  rw [normalizeToken_of_no_dot a ha, normalizeToken_of_no_dot b hb] at h1
  have h2 : a.toList ++ "+00:00".toList = b.toList ++ "+00:00".toList := by
    have := congrArg String.data h1
    simpa [String.data_append] using this
  exact hne (String.toList_inj.mp (List.append_cancel_right h2))

/-- C8 (witness): the amended theorem's injectivity applied to two concrete
dot-free tokens. -/
theorem claimC8_witness :
    rawPathOf (normalizeToken "2026-01-26T00:00:01+00:00") ≠
      rawPathOf (normalizeToken "2026-01-26T00:00:02+00:00") :=
  claimC8_amended.2.2 "2026-01-26T00:00:01+00:00" "2026-01-26T00:00:02+00:00"
    (by decide) (by decide) (by decide)

-- aggregate purity helpers
theorem take4_of_pre {pre x : String} (hp : strHasPre pre x = true)
    (h4 : 4 ≤ pre.toList.length) : x.toList.take 4 = pre.toList.take 4 := by
  rw [strHasPre, List.isPrefixOf_iff_prefix] at hp
  obtain ⟨t, ht⟩ := hp
  rw [← ht, List.take_append_eq_append_take, Nat.sub_eq_zero_of_le h4,
    List.take_zero, List.append_nil]

theorem processedPre_rawPathOf_false (v : String) :
    strHasPre "processed/" (rawPathOf v) = false := by
  cases h : strHasPre "processed/" (rawPathOf v) with
  | false => rfl
  | true =>
    have h1 := take4_of_pre h (by decide)
    rw [take4_rawPathOf] at h1
    exact absurd h1 (by decide)

theorem keys_filterPred_del (s : Store) (p : ObjPath) (P : ObjPath → Bool)
    (hp : P p = false) : (s.del p).keys.filter P = s.keys.filter P := by
  simp only [Store.del, Store.keys]
  induction s.entries with
  | nil => rfl
  | cons a t ih =>
    cases hb : (a.1 == p) with
    | true =>
      have haP : P a.1 = false := by
        rw [beq_iff_eq] at hb
        rw [hb]
        exact hp
      simp [List.filter_cons, hb, List.map_cons, haP, ih]
    | false =>
      by_cases hP : P a.1 = true
      · simp [List.filter_cons, hb, List.map_cons, hP, ih]
      · have hP' : P a.1 = false := by
          cases h : P a.1 with
          | true => exact absurd h hP
          | false => rfl
        simp [List.filter_cons, hb, List.map_cons, hP', ih]

theorem keys_filterPred_set (s : Store) (p : ObjPath) (o : Obj) (P : ObjPath → Bool)
    (hp : P p = false) : (s.set p o).keys.filter P = s.keys.filter P := by
  have h := keys_filterPred_del s p P hp
  simp only [Store.set, Store.keys, List.map_cons, List.filter_cons, hp] at *
  exact h

theorem globProcessed_del (s : Store) (p : ObjPath)
    (hp : (strHasPre "processed/" p && strHasSuf ".parquet" p) = false) :
    globProcessed (s.del p) = globProcessed s := by
  unfold globProcessed
  rw [keys_filterPred_del s p _ hp]

theorem globProcessed_set (s : Store) (p : ObjPath) (o : Obj)
    (hp : (strHasPre "processed/" p && strHasSuf ".parquet" p) = false) :
    globProcessed (s.set p o) = globProcessed s := by
  unfold globProcessed
  rw [keys_filterPred_set s p o _ hp]

theorem mem_globProcessed_pred (s : Store) (q : ObjPath) (h : q ∈ globProcessed s) :
    (strHasPre "processed/" q && strHasSuf ".parquet" q) = true := by
  unfold globProcessed sortPaths at h
  rw [List.mem_insertionSort] at h
  exact (List.mem_filter.mp h).2

theorem historyRows_del (s : Store) (p : ObjPath)
    (hp : (strHasPre "processed/" p && strHasSuf ".parquet" p) = false) :
    historyRows (s.del p) = historyRows s := by
  unfold historyRows
  rw [globProcessed_del s p hp]
  have hmap : List.map (fun q => rowsOfObj ((s.del p).get q)) (globProcessed s) =
      List.map (fun q => rowsOfObj (s.get q)) (globProcessed s) := by
    apply List.map_congr_left
    intro q hq
    have hqp : q ≠ p := by
      intro he
      rw [he] at hq
      exact absurd (mem_globProcessed_pred s p hq) (by rw [hp]; decide)
    rw [Store.get_del_ne _ _ _ hqp]
  rw [hmap]

theorem historyRows_set (s : Store) (p : ObjPath) (o : Obj)
    (hp : (strHasPre "processed/" p && strHasSuf ".parquet" p) = false) :
    historyRows (s.set p o) = historyRows s := by
  unfold historyRows
  rw [globProcessed_set s p o hp]
  have hmap : List.map (fun q => rowsOfObj ((s.set p o).get q)) (globProcessed s) =
      List.map (fun q => rowsOfObj (s.get q)) (globProcessed s) := by
    apply List.map_congr_left
    intro q hq
    have hqp : q ≠ p := by
      intro he
      rw [he] at hq
      exact absurd (mem_globProcessed_pred s p hq) (by rw [hp]; decide)
    rw [Store.get_set_ne _ _ _ _ hqp]
  rw [hmap]

theorem historyRows_eq_of_view (s : Store) :
    historyRows s = ((processedView s).map (fun e => rowsOfObj e.2)).flatten.map projectRow := by
  unfold historyRows processedView
  rw [List.map_map]
  rfl

theorem Store.set_del_self (s : Store) (p : ObjPath) (o : Obj) :
    (s.del p).set p o = s.set p o := by
  simp [Store.set, Store.del, List.filter_filter, Bool.and_self]

/-- C4: the rebuilt Historical Aggregate is a pure function of the processed
artifacts the glob sees: (i) any two buckets with the same processed view
(same matched paths with the same contents, regardless of PipelineState, of
raw snapshots or of entry order) rebuild the same row list; (ii) writes to
the state object and (iii) to raw snapshot paths leave the rebuilt rows
unchanged; (iv) rebuild_jobs_history equals update_jobs_history (the prior
aggregate's deletion is irrelevant) and the rebuilt aggregate's content is
exactly historyRows. -/
theorem claimC4_aggregate_pure :
    (∀ s1 s2 : Store, processedView s1 = processedView s2 →
      historyRows s1 = historyRows s2) ∧
    (∀ (s : Store) (st : PipelineState),
      historyRows (update_state s st) = historyRows s) ∧
    (∀ (s : Store) (v : String) (o : Obj),
      historyRows (s.set (rawPathOf v) o) = historyRows s) ∧
    (∀ s : Store, rebuild_jobs_history s = update_jobs_history s ∧
      (update_jobs_history s).get "jobs_history.parquet" =
        some (Obj.parquet (historyRows s))) := by
  refine ⟨?_, ?_, ?_, ?_⟩
  · intro s1 s2 h
    rw [historyRows_eq_of_view, historyRows_eq_of_view, h]
  · intro s st
    exact historyRows_set s "metadata.json" _ (by decide)
  · intro s v o
    refine historyRows_set s (rawPathOf v) o ?_
    rw [processedPre_rawPathOf_false]
    rfl
  · intro s
    constructor
    · unfold rebuild_jobs_history update_jobs_history
      rw [historyRows_del s "jobs_history.parquet" (by decide)]
      exact Store.set_del_self s "jobs_history.parquet" _
    · unfold update_jobs_history
      exact Store.get_set_self _ _ _

/-- C4 (witness): the purity component applied to two concrete buckets that
agree on the processed view but differ in state, raw contents and entry
order. -/
theorem claimC4_witness :
    historyRows storeAgg1 = historyRows storeAgg2 :=
  claimC4_aggregate_pure.1 storeAgg1 storeAgg2 (by decide)

-- noninterference helpers
theorem stripMeta_eq_del (s : Store) : stripMeta s = s.del "metadata.json" :=
  rfl

theorem get_stripMeta (s : Store) (q : ObjPath) (h : q ≠ "metadata.json") :
    (stripMeta s).get q = s.get q := by
  rw [stripMeta_eq_del]
  exact Store.get_del_ne _ _ _ h

theorem stripMeta_set_ne (s : Store) (p : ObjPath) (o : Obj)
    (hp : p ≠ "metadata.json") :
    stripMeta (s.set p o) = (stripMeta s).set p o := by
  have hb : (p == "metadata.json") = false := by simp [hp]
  simp only [stripMeta, Store.set, List.filter_cons, hb, Bool.not_false, if_true,
    List.filter_filter]
  congr 2
  apply List.filter_congr
  intro e _
  exact Bool.and_comm _ _

theorem stripMeta_update_state (s : Store) (st : PipelineState) :
    stripMeta (update_state s st) = stripMeta s := by
  simp only [stripMeta, update_state, Store.set, List.filter_cons, beq_self_eq_true,
    Bool.not_true, if_false, List.filter_filter, Bool.and_self]
  rfl

theorem historyRows_stripMeta (s : Store) :
    historyRows (stripMeta s) = historyRows s := by
  rw [stripMeta_eq_del]
  exact historyRows_del s "metadata.json" (by decide)

theorem get_agree_of_stripMeta_eq {s1 s2 : Store} (h : stripMeta s1 = stripMeta s2)
    (q : ObjPath) (hq : q ≠ "metadata.json") : s1.get q = s2.get q := by
  rw [← get_stripMeta s1 q hq, ← get_stripMeta s2 q hq, h]

theorem historyRows_agree_of_stripMeta_eq {s1 s2 : Store}
    (h : stripMeta s1 = stripMeta s2) : historyRows s1 = historyRows s2 := by
  rw [← historyRows_stripMeta s1, ← historyRows_stripMeta s2, h]

theorem history_ne_meta : ("jobs_history.parquet" : ObjPath) ≠ "metadata.json" := by
  decide

/-- C10: the incremental run's decision and all artifact writes are
independent of the persisted PipelineState: for buckets that agree outside
the state object (and whose state objects both parse), the same environment
yields the same outcome and the same bucket contents outside the state
object — because the new-data decision reads only the existence of the raw
object at the derived path, never the stored state. -/
theorem claimC10_state_noninterference (tf : Table → Table) (env : Env)
    (s1 s2 : Store) (st1 st2 : PipelineState) (h : stripMeta s1 = stripMeta s2)
    (hg1 : get_state s1 = .ok st1) (hg2 : get_state s2 = .ok st2) :
    (process_latest tf env s1).1 = (process_latest tf env s2).1 ∧
    stripMeta (process_latest tf env s1).2 = stripMeta (process_latest tf env s2).2 := by
  cases hp : env.probe with
  | none =>
    rw [process_latest_no_probe tf env s1 st1 hg1 hp,
      process_latest_no_probe tf env s2 st2 hg2 hp]
    exact ⟨rfl, h⟩
  | some p =>
    have hget : s1.get (rawPathOf (normalizeToken p)) =
        s2.get (rawPathOf (normalizeToken p)) :=
      get_agree_of_stripMeta_eq h _ (rawPathOf_ne_meta _)
    have hkey : s1.hasKey (rawPathOf (normalizeToken p)) =
        s2.hasKey (rawPathOf (normalizeToken p)) := by
      simp [Store.hasKey, hget]
    cases hraw : s1.hasKey (rawPathOf (normalizeToken p)) with
    | true =>
      have hraw2 : s2.hasKey (rawPathOf (normalizeToken p)) = true := by
        rw [← hkey]
        exact hraw
      rw [process_latest_raw_present tf env s1 st1 p hg1 hp hraw,
        process_latest_raw_present tf env s2 st2 p hg2 hp hraw2]
      exact ⟨rfl, h⟩
    | false =>
      have hraw2 : s2.hasKey (rawPathOf (normalizeToken p)) = false := by
        rw [← hkey]
        exact hraw
      have hset1 : stripMeta (s1.set (rawPathOf (normalizeToken p))
            (Obj.rawJson env.fetchRows)) =
          stripMeta (s2.set (rawPathOf (normalizeToken p))
            (Obj.rawJson env.fetchRows)) := by
        rw [stripMeta_set_ne _ _ _ (rawPathOf_ne_meta _),
          stripMeta_set_ne _ _ _ (rawPathOf_ne_meta _), h]
      cases hf : env.fetchOk with
      | false =>
        rw [process_latest_fetch_fail tf env s1 st1 p hg1 hp hraw hf,
          process_latest_fetch_fail tf env s2 st2 p hg2 hp hraw2 hf]
        exact ⟨rfl, h⟩
      | true =>
        cases ht : env.transformOk with
        | false =>
          rw [process_latest_transform_fail tf env s1 st1 p hg1 hp hraw hf ht,
            process_latest_transform_fail tf env s2 st2 p hg2 hp hraw2 hf ht]
          exact ⟨rfl, hset1⟩
        | true =>
          have hset2 : stripMeta ((s1.set (rawPathOf (normalizeToken p))
                  (Obj.rawJson env.fetchRows)).set (parquetPathOf (normalizeToken p))
                  (Obj.parquet (tf env.fetchRows))) =
              stripMeta ((s2.set (rawPathOf (normalizeToken p))
                  (Obj.rawJson env.fetchRows)).set (parquetPathOf (normalizeToken p))
                  (Obj.parquet (tf env.fetchRows))) := by
            rw [stripMeta_set_ne _ _ _ (parquetPathOf_ne_meta _),
              stripMeta_set_ne _ _ _ (parquetPathOf_ne_meta _), hset1]
          cases ha : env.aggregateOk with
          | false =>
            rw [process_latest_aggregate_fail tf env s1 st1 p hg1 hp hraw hf ht ha,
              process_latest_aggregate_fail tf env s2 st2 p hg2 hp hraw2 hf ht ha]
            exact ⟨rfl, hset2⟩
          | true =>
            rw [process_latest_success tf env s1 st1 p hg1 hp hraw hf ht ha,
              process_latest_success tf env s2 st2 p hg2 hp hraw2 hf ht ha]
            refine ⟨rfl, ?_⟩
            rw [stripMeta_update_state, stripMeta_update_state]
            unfold update_jobs_history
            rw [stripMeta_set_ne _ "jobs_history.parquet" _ history_ne_meta,
              stripMeta_set_ne _ "jobs_history.parquet" _ history_ne_meta,
              hset2, historyRows_agree_of_stripMeta_eq hset2]

/-- C10 (witness): the noninterference theorem applied to two concrete
buckets that differ only in their stored PipelineState (source versions
2026-01-02 vs 2031-12-31): the probed 2026-01-01 version is treated
identically. -/
theorem claimC10_witness :
    (process_latest id envOlderProbe storeOld).1 =
      (process_latest id envOlderProbe storeOldAlt).1 ∧
    stripMeta (process_latest id envOlderProbe storeOld).2 =
      stripMeta (process_latest id envOlderProbe storeOldAlt).2 :=
  claimC10_state_noninterference id envOlderProbe storeOld storeOldAlt stOld stNew
    (by decide) (by decide) (by decide)

-- lexicographic order congruence for equal-length affixes
theorem lex_irrefl : ∀ (l : List Char), ¬ List.Lex (· < ·) l l := by
  intro l h
  induction l with
  | nil => cases h
  | cons x xs ih =>
    cases h with
    | rel h1 => exact lt_irrefl x h1
    | cons h1 => exact ih h1

theorem lex_append_iff : ∀ (a b : List Char), a.length = b.length → ∀ (s t : List Char),
    (List.Lex (· < ·) (a ++ s) (b ++ t) ↔
      List.Lex (· < ·) a b ∨ (a = b ∧ List.Lex (· < ·) s t)) := by
  intro a
  induction a with
  | nil =>
    intro b hb s t
    cases b with
    | nil =>
      simp only [List.nil_append]
      constructor
      · intro h
        exact Or.inr ⟨by trivial, h⟩
      · intro h
        rcases h with h | ⟨_, h⟩
        · cases h
        · exact h
    | cons y ys => cases hb
  | cons x xs ih =>
    intro b hb s t
    cases b with
    | nil => cases hb
    | cons y ys =>
      have hlen : xs.length = ys.length := by
        simpa using hb
      simp only [List.cons_append]
      constructor
      · intro h
        cases h with
        | rel h1 => exact Or.inl (List.Lex.rel h1)
        | cons h3 =>
          rcases (ih ys hlen s t).mp h3 with h4 | ⟨h4, h5⟩
          · exact Or.inl (List.Lex.cons h4)
          · rw [h4]
            exact Or.inr ⟨rfl, h5⟩
      · intro h
        rcases h with h | ⟨h, h5⟩
        · cases h with
          | rel h1 => exact List.Lex.rel h1
          | cons h3 => exact List.Lex.cons ((ih ys hlen s t).mpr (Or.inl h3))
        · have hx : x = y := by injection h
          have hxs : xs = ys := by injection h
          subst hx hxs
          exact List.Lex.cons ((ih xs rfl s t).mpr (Or.inr ⟨rfl, h5⟩))

theorem affix_lt_iff (pre suf a b : String) (h : a.toList.length = b.toList.length) :
    ((pre ++ a ++ suf : String) < (pre ++ b ++ suf)) ↔ a < b := by
  rw [String.lt_iff_toList_lt, String.lt_iff_toList_lt]
  have e1 : (pre ++ a ++ suf).toList = pre.toList ++ (a.toList ++ suf.toList) := by
    show (pre ++ a ++ suf).data = pre.data ++ (a.data ++ suf.data)
    simp [String.data_append]
  have e2 : (pre ++ b ++ suf).toList = pre.toList ++ (b.toList ++ suf.toList) := by
    show (pre ++ b ++ suf).data = pre.data ++ (b.data ++ suf.data)
    simp [String.data_append]
  rw [e1, e2]
  show List.Lex (· < ·) _ _ ↔ List.Lex (· < ·) _ _
  rw [lex_append_iff pre.toList pre.toList rfl]
  rw [lex_append_iff a.toList b.toList h]
  constructor
  · intro hh
    rcases hh with hh | ⟨_, hh | ⟨he, hs⟩⟩
    · exact absurd hh (lex_irrefl _)
    · exact hh
    · exact absurd hs (lex_irrefl _)
  · intro hh
    exact Or.inr ⟨rfl, Or.inl hh⟩

theorem rawPathOf_lt_iff (a b : String) (h : a.toList.length = b.toList.length) :
    rawPathOf a < rawPathOf b ↔ a < b := by
  unfold rawPathOf
  exact affix_lt_iff "raw/" ".json" a b h

theorem rawPathOf_le_iff (a b : String) (h : a.toList.length = b.toList.length) :
    rawPathOf a ≤ rawPathOf b ↔ a ≤ b := by
  rw [← not_lt, ← not_lt, rawPathOf_lt_iff b a h.symm]

-- sorted lists: every element is at most the last
theorem sorted_le_getLast : ∀ (l : List String) (hl : l ≠ [])
    (_ : List.Sorted (· ≤ ·) l) (x : String), x ∈ l → x ≤ l.getLast hl := by
  intro l
  induction l with
  | nil => intro hl; exact absurd rfl hl
  | cons a t ih =>
    intro hl hs x hx
    cases t with
    | nil =>
      rcases List.mem_singleton.mp hx with rfl
      exact le_refl x
    | cons b u =>
      rw [List.getLast_cons (by simp)]
      rcases List.mem_cons.mp hx with rfl | hx2
      · have hab : ∀ y ∈ b :: u, x ≤ y := (List.sorted_cons.mp hs).1
        exact hab _ (List.getLast_mem _)
      · exact ih (by simp) (List.sorted_cons.mp hs).2 x hx2

theorem parquetPathOf_injective (v w : String) (h : parquetPathOf v = parquetPathOf w) :
    v = w := by
  have hd : "processed/".toList ++ (v.toList ++ ".parquet".toList) =
      "processed/".toList ++ (w.toList ++ ".parquet".toList) := by
    have := congrArg String.data h
    simpa [parquetPathOf, String.data_append, List.append_assoc] using this
  have h1 := List.append_cancel_left hd
  have h2 := List.append_cancel_right h1
  exact String.toList_inj.mp h2

theorem get_foldl_del (ps : List ObjPath) (s : Store) (q : ObjPath)
    (h : ∀ p ∈ ps, q ≠ p) : (ps.foldl Store.del s).get q = s.get q := by
  induction ps generalizing s with
  | nil => rfl
  | cons p rest ih =>
    simp only [List.foldl_cons]
    rw [ih (s.del p) (fun r hr => h r (List.mem_cons_of_mem p hr))]
    exact Store.get_del_ne s p q (h p (List.mem_cons_self p rest))

/-- Behaviour of the per-file loop of reprocess_all on well-formed raw names:
it succeeds, reports the last token, writes exactly the regenerated parquet
artifacts, and leaves every other path untouched. -/
theorem reprocessLoop_ok (tf : Table → Table) :
    ∀ (ns : List ObjPath) (s : Store) (acc : Option String)
    (_ : ∀ n ∈ ns, n = rawPathOf (tokenOfRawName n))
    (_ : ∀ n ∈ ns, ∃ rows, s.get n = some (Obj.rawJson rows))
    (_ : (ns.map tokenOfRawName).Nodup),
    ∃ s2 latest, reprocessLoop tf ns s acc = .ok (s2, latest) ∧
      (ns = [] → latest = acc) ∧
      (∀ h : ns ≠ [], latest = some (tokenOfRawName (ns.getLast h))) ∧
      (∀ q, (∀ n ∈ ns, q ≠ parquetPathOf (tokenOfRawName n)) → s2.get q = s.get q) ∧
      (∀ n ∈ ns, ∀ rows, s.get n = some (Obj.rawJson rows) →
        s2.get (parquetPathOf (tokenOfRawName n)) = some (Obj.parquet (tf rows))) := by
  intro ns
  induction ns with
  | nil =>
    intro s acc _ _ _
    exact ⟨s, acc, rfl, fun _ => rfl, fun h => absurd rfl h, fun q _ => rfl,
      fun n hn => absurd hn (List.not_mem_nil n)⟩
  | cons n rest ih =>
    intro s acc hwf hobj hnod
    obtain ⟨rows, hrows⟩ := hobj n (List.mem_cons_self n rest)
    have hstep : process_jobs tf s n (parquetPathOf (tokenOfRawName n)) =
        some (s.set (parquetPathOf (tokenOfRawName n)) (Obj.parquet (tf rows))) := by
      unfold process_jobs
      rw [hrows]
    have hwf_rest : ∀ m ∈ rest, m = rawPathOf (tokenOfRawName m) :=
      fun m hm => hwf m (List.mem_cons_of_mem n hm)
    have hobj_rest : ∀ m ∈ rest, ∃ rws,
        (s.set (parquetPathOf (tokenOfRawName n)) (Obj.parquet (tf rows))).get m =
          some (Obj.rawJson rws) := by
      intro m hm
      obtain ⟨rws, hrws⟩ := hobj m (List.mem_cons_of_mem n hm)
      refine ⟨rws, ?_⟩
      rw [Store.get_set_ne _ _ _ _ ?_, hrws]
      rw [hwf_rest m hm]
      exact rawPathOf_ne_parquetPathOf _ _
    have hnod_rest : (rest.map tokenOfRawName).Nodup := (List.nodup_cons.mp hnod).2
    have htok_notin : tokenOfRawName n ∉ rest.map tokenOfRawName :=
      (List.nodup_cons.mp hnod).1
    obtain ⟨s2, latest, hloop, hnil, hlast, hother, hwrites⟩ :=
      ih (s.set (parquetPathOf (tokenOfRawName n)) (Obj.parquet (tf rows)))
        (some (tokenOfRawName n)) hwf_rest hobj_rest hnod_rest
    refine ⟨s2, latest, ?_, ?_, ?_, ?_, ?_⟩
    · unfold reprocessLoop
      rw [hstep]
      exact hloop
    · intro h
      cases h
    · intro _
      by_cases hre : rest = []
      · subst hre
        simp only [List.getLast_singleton]
        exact hnil rfl
      · rw [List.getLast_cons hre]
        exact hlast hre
    · intro q hq
      rw [hother q (fun m hm => hq m (List.mem_cons_of_mem n hm))]
      exact Store.get_set_ne _ _ _ _ (hq n (List.mem_cons_self n rest))
    · intro m hm rws hrws2
      rcases List.mem_cons.mp hm with rfl | hm2
      · have hrw : rws = rows := by
          rw [hrows] at hrws2
          injection hrws2 with h2
          injection h2 with h3
          exact h3.symm
        subst hrw
        rw [hother (parquetPathOf (tokenOfRawName m)) ?_]
        · exact Store.get_set_self _ _ _
        · intro m2 hm2 he
          have : tokenOfRawName m = tokenOfRawName m2 := parquetPathOf_injective _ _ he
          exact htok_notin (this ▸ List.mem_map_of_mem tokenOfRawName hm2)
      · have hpres : (s.set (parquetPathOf (tokenOfRawName n))
            (Obj.parquet (tf rows))).get m = some (Obj.rawJson rws) := by
          rw [Store.get_set_ne _ _ _ _ ?_, hrws2]
          rw [hwf_rest m hm2]
          exact rawPathOf_ne_parquetPathOf _ _
        exact hwrites m hm2 rws hpres

/-- C9: on a bucket whose raw snapshot names are well-formed (`raw/<t>.json`,
tokens of one fixed positive length, pairwise distinct, each holding a raw
record set), reprocess_all succeeds, visits the snapshots in the order
`reprocessOrder` whose embedded tokens are ascending (and cover exactly the
raw set); it regenerates every processed artifact from its raw snapshot via
the transform; and the final persisted state has `source_updated_at` = the
lexicographically greatest token processed, `last_processed_at` = the run's
clock, `last_fetched_at` preserved from the prior state (and `record_count`
reset to none). -/
theorem claimC9_reprocess_all (tf : Table → Table) (nowP : String) (s : Store)
    (st0 : PipelineState) (L : Nat) (hg : get_state s = .ok st0)
    (hne : s.keys.filter (fun p => strHasPre "raw/" p) ≠ [])
    (hwf : ∀ n ∈ s.keys.filter (fun p => strHasPre "raw/" p),
      n = rawPathOf (tokenOfRawName n))
    (hlen : ∀ n ∈ s.keys.filter (fun p => strHasPre "raw/" p),
      (tokenOfRawName n).toList.length = L)
    (hL : 0 < L)
    (hnod : ((s.keys.filter (fun p => strHasPre "raw/" p)).map tokenOfRawName).Nodup)
    (hobjb : ∀ n ∈ s.keys.filter (fun p => strHasPre "raw/" p),
      isRawObj (s.get n) = true) :
    (reprocess_all tf nowP s).1 =
      Res.reprocessed (s.keys.filter (fun p => strHasPre "raw/" p)).length ∧
    List.Sorted (· ≤ ·) ((reprocessOrder s).map tokenOfRawName) ∧
    List.Perm ((reprocessOrder s).map tokenOfRawName)
      ((s.keys.filter (fun p => strHasPre "raw/" p)).map tokenOfRawName) ∧
    (∃ tmax,
      get_state (reprocess_all tf nowP s).2 =
        .ok ⟨some tmax, st0.last_fetched_at, some nowP, none⟩ ∧
      (∀ n ∈ s.keys.filter (fun p => strHasPre "raw/" p), tokenOfRawName n ≤ tmax) ∧
      tmax ∈ (s.keys.filter (fun p => strHasPre "raw/" p)).map tokenOfRawName) ∧
    (∀ n ∈ s.keys.filter (fun p => strHasPre "raw/" p), ∀ rows,
      s.get n = some (Obj.rawJson rows) →
      (reprocess_all tf nowP s).2.get (parquetPathOf (tokenOfRawName n)) =
        some (Obj.parquet (tf rows))) := by
  have hobj : ∀ n ∈ s.keys.filter (fun p => strHasPre "raw/" p),
      ∃ rows, s.get n = some (Obj.rawJson rows) := by
    intro n hn
    have h := hobjb n hn
    cases hg2 : s.get n with
    | none =>
      rw [hg2] at h
      cases h
    | some o =>
      cases o with
      | rawJson rows => exact ⟨rows, rfl⟩
      | parquet rows =>
        rw [hg2] at h
        cases h
      | stateJson st =>
        rw [hg2] at h
        cases h
      | corrupt c =>
        rw [hg2] at h
        cases h
  have hmem : ∀ n, n ∈ sortPaths (s.keys.filter (fun p => strHasPre "raw/" p)) ↔
      n ∈ s.keys.filter (fun p => strHasPre "raw/" p) := by
    intro n
    unfold sortPaths
    exact List.mem_insertionSort _
  have hraw_ne_proc : ∀ n ∈ s.keys.filter (fun p => strHasPre "raw/" p),
      ∀ p ∈ s.keys.filter (fun p => strHasPre "processed/" p), n ≠ p := by
    intro n hn p hp he
    have h1 : strHasPre "processed/" p = true := (List.mem_filter.mp hp).2
    rw [← he, hwf n hn, processedPre_rawPathOf_false] at h1
    cases h1
  have hobj1 : ∀ n ∈ sortPaths (s.keys.filter (fun p => strHasPre "raw/" p)),
      ∃ rows, ((s.keys.filter (fun p => strHasPre "processed/" p)).foldl
        Store.del s).get n = some (Obj.rawJson rows) := by
    intro n hn
    have hn2 := (hmem n).mp hn
    obtain ⟨rows, hr⟩ := hobj n hn2
    refine ⟨rows, ?_⟩
    rw [get_foldl_del _ _ _ (hraw_ne_proc n hn2), hr]
  have hwf1 : ∀ n ∈ sortPaths (s.keys.filter (fun p => strHasPre "raw/" p)),
      n = rawPathOf (tokenOfRawName n) :=
    fun n hn => hwf n ((hmem n).mp hn)
  have hperm : List.Perm (sortPaths (s.keys.filter (fun p => strHasPre "raw/" p)))
      (s.keys.filter (fun p => strHasPre "raw/" p)) := by
    unfold sortPaths
    exact List.perm_insertionSort _ _
  have hnod1 : ((sortPaths (s.keys.filter (fun p => strHasPre "raw/" p))).map
      tokenOfRawName).Nodup :=
    ((hperm.map tokenOfRawName).nodup_iff).mpr hnod
  obtain ⟨s2, latest, hloop, hnil, hlast, hother, hwrites⟩ :=
    reprocessLoop_ok tf (sortPaths (s.keys.filter (fun p => strHasPre "raw/" p)))
      ((s.keys.filter (fun p => strHasPre "processed/" p)).foldl Store.del s)
      none hwf1 hobj1 hnod1
  have hns : sortPaths (s.keys.filter (fun p => strHasPre "raw/" p)) ≠ [] := by
    intro h
    exact hne (List.Perm.eq_nil (h ▸ hperm.symm))
  have hgl_mem_ns := List.getLast_mem hns
  have hgl_mem_raw := (hmem _).mp hgl_mem_ns
  have hlat := hlast hns
  have htmax_ne : tokenOfRawName ((sortPaths
      (s.keys.filter (fun p => strHasPre "raw/" p))).getLast hns) ≠ "" := by
    intro h
    have hlen2 := hlen _ hgl_mem_raw
    rw [h] at hlen2
    simp at hlen2
    omega
  have run_eq : reprocess_all tf nowP s =
      (Res.reprocessed (s.keys.filter (fun p => strHasPre "raw/" p)).length,
        update_state (rebuild_jobs_history s2)
          ⟨some (tokenOfRawName ((sortPaths
              (s.keys.filter (fun p => strHasPre "raw/" p))).getLast hns)),
            st0.last_fetched_at, some nowP, none⟩) := by
    have hie : (s.keys.filter (fun p => strHasPre "raw/" p)).isEmpty = false :=
      List.isEmpty_eq_false.mpr hne
    unfold reprocess_all
    rw [hg]
    simp only [hie, Bool.false_eq_true, if_false]
    rw [hloop, hlat]
    simp only [htmax_ne, if_false, ite_false]
  have hsorted : List.Sorted (· ≤ ·)
      (sortPaths (s.keys.filter (fun p => strHasPre "raw/" p))) := by
    unfold sortPaths
    exact List.sorted_insertionSort _ _
  have htok_le : ∀ a ∈ sortPaths (s.keys.filter (fun p => strHasPre "raw/" p)),
      ∀ b ∈ sortPaths (s.keys.filter (fun p => strHasPre "raw/" p)),
      a ≤ b → tokenOfRawName a ≤ tokenOfRawName b := by
    intro a ha b hb hr
    rw [hwf1 a ha, hwf1 b hb] at hr
    exact (rawPathOf_le_iff _ _ (by
      rw [hlen _ ((hmem a).mp ha), hlen _ ((hmem b).mp hb)])).mp hr
  refine ⟨?_, ?_, ?_, ⟨tokenOfRawName ((sortPaths
      (s.keys.filter (fun p => strHasPre "raw/" p))).getLast hns), ?_, ?_, ?_⟩, ?_⟩
  · rw [run_eq]
  · exact List.pairwise_map.mpr
      (List.Pairwise.imp_of_mem (fun ha hb hr => htok_le _ ha _ hb hr) hsorted)
  · exact hperm.map tokenOfRawName
  · rw [run_eq]
    exact get_state_update_state _ _
  · intro n hn
    have hn_ns := (hmem n).mpr hn
    exact htok_le n hn_ns _ hgl_mem_ns
      (sorted_le_getLast _ hns hsorted n hn_ns)
  · exact List.mem_map_of_mem tokenOfRawName hgl_mem_raw
  · intro n hn rows hrows
    have hn_ns := (hmem n).mpr hn
    have hrows1 : ((s.keys.filter (fun p => strHasPre "processed/" p)).foldl
        Store.del s).get n = some (Obj.rawJson rows) := by
      rw [get_foldl_del _ _ _ (hraw_ne_proc n hn), hrows]
    have hw := hwrites n hn_ns rows hrows1
    rw [run_eq]
    show (update_state (rebuild_jobs_history s2) _).get _ = _
    rw [update_state, Store.get_set_ne _ _ _ _ (parquetPathOf_ne_meta _)]
    rw [rebuild_jobs_history, update_jobs_history,
      Store.get_set_ne _ _ _ _ (parquetPathOf_ne_history _),
      Store.get_del_ne _ _ _ (parquetPathOf_ne_history _)]
    exact hw

/-- C9 (witness): the reprocess theorem applied to a concrete bucket with
three out-of-order raw snapshots: all three are reprocessed and the state
records the greatest token, the run clock, and the preserved fetch time. -/
theorem claimC9_witness :
    (reprocess_all id "2026-02-01T10:00:00+00:00" storeMulti).1 =
      Res.reprocessed 3 ∧
    get_state (reprocess_all id "2026-02-01T10:00:00+00:00" storeMulti).2 =
      .ok ⟨some "2026-01-03T00:00:00+00:00", stOld.last_fetched_at,
        some "2026-02-01T10:00:00+00:00", none⟩ := by
  have h := claimC9_reprocess_all id "2026-02-01T10:00:00+00:00" storeMulti stOld 25
    (by decide) (by decide) (by decide) (by decide) (by decide) (by decide) (by decide)
  obtain ⟨h1, _, _, ⟨tmax, h4, hmax, hmem⟩, _⟩ := h
  have h3 := hmax "raw/2026-01-03T00:00:00+00:00.json" (by decide)
  have hlist : (storeMulti.keys.filter (fun p => strHasPre "raw/" p)).map
      tokenOfRawName = ["2026-01-03T00:00:00+00:00", "2026-01-01T00:00:00+00:00",
        "2026-01-02T00:00:00+00:00"] := by decide
  rw [hlist] at hmem
  have h3' : ("2026-01-03T00:00:00+00:00" : String) ≤ tmax := h3
  simp only [List.mem_cons, List.not_mem_nil, or_false] at hmem
  rcases hmem with rfl | rfl | rfl
  · exact ⟨h1, h4⟩
  · exact absurd h3' (by decide)
  · exact absurd h3' (by decide)
